import Mathlib

/-!
Verification development for the book-aggregation pipeline in `src/main.js`.

The program fetches a remote repository's directory listings, downloads
chapter / code / image files, rewrites `image::<path>[<alt>]` directives by
stripping one leading `images/` segment, joins the chapter documents with a
blank-line separator and renders the result to a PDF, removing its temporary
staging directory at the end.

The shallow embedding below mirrors the source file:
* pure string algorithms (the image-directive rewrite of `mergeFiles`,
  lines 95-101) are translated character-by-character, reproducing the
  semantics of the JavaScript regex `image::(.*?)\[(.*?)\]` with the `g`
  flag (leftmost, non-overlapping, lazy groups, `.` excluding the line
  terminators `\n`, `\r`, U+2028, U+2029) and of
  `imagePath.replace(/^images\//, '')` (one anchored prefix strip);
* the network and the delegated libraries (axios, asciidoctor, puppeteer)
  are opaque external collaborators, modelled as function-valued fields of
  an `Env` record; every request the code issues is recorded as an `Event`;
* filesystem effects are threaded through an explicit `World` state
  (existing directories, written files, event trace);
* `Promise.all` over downloads is modelled by running every download (all
  are launched) and rejecting with the first rejection in list order.
-/

/-- Fixed output path for the generated PDF (src/main.js line 7). -/
def OUTPUT_FILE : String := "mastering-bitcoin.pdf"

/-- Temporary staging directory (src/main.js line 8). -/
def TEMP_DIR : String := "./temp_adoc_files"

/-- GitHub contents API base URL (src/main.js line 9). -/
def API_URL : String := "https://api.github.com/repos/bitcoinbook/bitcoinbook/contents"

/-- URL queried by `fetchRepoContents` for a folder (line 14: `API_URL + '/' + folder`). -/
def contentsUrl (folder : String) : String := API_URL ++ "/" ++ folder

/-- One entry of the remote listing response, with the two fields the code
reads (`name`, `download_url`); the listing's unused fields are elided. -/
structure GhEntry where
  name : String
  download_url : String
deriving DecidableEq

/-- The `{name, downloadUrl}` pairs built by the selectors (lines 36-39). -/
structure RemoteFile where
  name : String
  downloadUrl : String
deriving DecidableEq

/-- The axios request issued by `downloadFile` (line 24): URL plus the
`responseType`, `family` and `timeout` options of the config object. -/
structure AxiosRequest where
  url : String
  responseType : String
  family : Nat
  timeout : Nat
deriving DecidableEq

/-- Response payload presented by the HTTP client: a string for text
responses, a byte list for `arraybuffer` responses. -/
inductive AxiosData where
  | str (s : String)
  | buf (b : List Nat)
deriving DecidableEq

/-- Model of `response.data.toString('utf8')` (line 25): a string response is
returned as is; the byte decoding of a buffer is modelled byte-by-byte. -/
def AxiosData.toStringUtf8 : AxiosData → String
  | .str s => s
  | .buf b => String.mk (b.map Char.ofNat)

/-- Content returned by `downloadFile`: the raw response payload in the
`arraybuffer` branch, text otherwise (line 25). -/
inductive DFile where
  | raw (d : AxiosData)
  | text (s : String)
deriving DecidableEq

/-- View a downloaded file as the string `mergeFiles` and `createCodeFiles`
operate on; the `raw` case is unreachable for non-`arraybuffer` downloads. -/
def DFile.asString : DFile → String
  | .raw d => d.toStringUtf8
  | .text s => s

/-- Observable events of a run: listing requests, file download requests and
console log lines. -/
inductive Event where
  | listReq (url : String)
  | fileReq (r : AxiosRequest)
  | logLine (s : String)
deriving DecidableEq

/-- Recognizer for file download request events. -/
def isFileReq : Event → Bool
  | .fileReq _ => true
  | _ => false

/-- Recognizer for listing request events. -/
def isListReq : Event → Bool
  | .listReq _ => true
  | _ => false

/-- External collaborators of the pipeline: the listing endpoint, the file
download endpoint, the asciidoctor conversion and the browser's PDF
rasterization.  The spec treats the internals of the last two as opaque
library calls, so they are total function parameters here. -/
structure Env where
  listing : String → Except String (List GhEntry)
  net : AxiosRequest → Except String AxiosData
  convert : String → String
  renderPdf : String → String

/-! ## The image-directive rewrite of `mergeFiles` (lines 95-101) -/

/-- Line terminators that `.` does not match in a JavaScript regex. -/
def isLineTerm (c : Char) : Bool :=
  c = '\n' || c = '\r' || c = Char.ofNat 8232 || c = Char.ofNat 8233

/-- Scan for the first occurrence of `target` reachable without crossing a
line terminator; return the characters before it and the rest after it.
This is the behaviour of a lazy group `(.*?)` followed by the literal
`target` in a JavaScript regex. -/
def splitBefore (target : Char) : List Char → Option (List Char × List Char)
  | [] => none
  | c :: rest =>
    if c = target then some ([], rest)
    else if isLineTerm c then none
    else
      match splitBefore target rest with
      | some (pre, post) => some (c :: pre, post)
      | none => none

/-- The literal `image::` that opens the directive pattern. -/
def imageMark : List Char := ['i', 'm', 'a', 'g', 'e', ':', ':']

/-- The literal `images/` stripped from the front of an image path. -/
def imagesSeg : List Char := ['i', 'm', 'a', 'g', 'e', 's', '/']

/-- Model of `imagePath.replace(/^images\//, '')` (line 98): remove one
leading `images/` segment when present. -/
def cleanImagePath (p : List Char) : List Char :=
  if imagesSeg.isPrefixOf p then p.drop 7 else p

/-- Attempt to match the regex `image::(.*?)\[(.*?)\]` at the head of `cs`;
on success return the two groups and the remaining input.  Lazy matching
makes the first group end at the first `[` reachable on the line and the
second group end at the first `]` after it on the line; since any such `]`
also follows the first `[`, no further backtracking case arises. -/
def tryImageMatch (cs : List Char) : Option (List Char × List Char × List Char) :=
  if imageMark.isPrefixOf cs then
    match splitBefore '[' (cs.drop 7) with
    | none => none
    | some (path, rest1) =>
      match splitBefore ']' rest1 with
      | none => none
      | some (alt, rest2) => some (path, alt, rest2)
  else none

/-- Fuelled scanner for the global (`g`-flag) replacement: at each position
try to match the directive; on a match emit the rewritten directive and
continue after it, otherwise copy one character.  The fuel only serves to
make the recursion structural; `rewriteScan` instantiates it adequately. -/
def scanFuel : Nat → List Char → List Char
  | _, [] => []
  | 0, cs => cs
  | fuel + 1, c :: rest =>
    match tryImageMatch (c :: rest) with
    | some (path, alt, rest2) =>
        imageMark ++ cleanImagePath path ++ '[' :: (alt ++ ']' :: scanFuel fuel rest2)
    | none => c :: scanFuel fuel rest

/-- Global rewrite of all image directives in a character list. -/
def rewriteScan (cs : List Char) : List Char := scanFuel cs.length cs

/-- Model of `content.replace(/image::(.*?)\[(.*?)\]/g, ...)` composed with
the per-match path cleaning (lines 96-99). -/
def rewriteImages (s : String) : String := String.mk (rewriteScan s.data)

/-- Model of `Array.prototype.join` with a separator (line 103). -/
def joinSep (sep : String) : List String → String
  | [] => ""
  | [s] => s
  | s :: rest => s ++ sep ++ joinSep sep rest

/-- The source text covered by one atom of the scanner's decomposition: a
single character lying outside every regex match, or one matched
directive `image::<path>[<alt>]`. -/
def partSource : Sum Char (List Char × List Char) → List Char
  | Sum.inl c => [c]
  | Sum.inr (p, a) => imageMark ++ (p ++ ('[' :: (a ++ [']'])))

/-- The output text the scanner emits for one atom: a character outside
every match is emitted unchanged; a matched directive is re-emitted with
one leading `images/` stripped from its path and its alt verbatim. -/
def partOutput : Sum Char (List Char × List Char) → List Char
  | Sum.inl c => [c]
  | Sum.inr (p, a) => imageMark ++ (cleanImagePath p ++ ('[' :: (a ++ [']'])))

/-- Fuelled companion of `scanFuel` computing the decomposition of the
input into non-matched characters and matches, in order. -/
def partsFuel : Nat → List Char → List (Sum Char (List Char × List Char))
  | _, [] => []
  | 0, _ => []
  | fuel + 1, c :: rest =>
    match tryImageMatch (c :: rest) with
    | some (path, alt, rest2) => Sum.inr (path, alt) :: partsFuel fuel rest2
    | none => Sum.inl c :: partsFuel fuel rest

/-- The scanner's decomposition of a text into the regions outside regex
matches (single characters) and the matched directives, in order. -/
def scanParts (cs : List Char) : List (Sum Char (List Char × List Char)) :=
  partsFuel cs.length cs

/-! ## Network layer (lines 12-30) and selectors (lines 32-48, 64-70) -/

/-- Model of `fetchRepoContents` (lines 12-20): one GET of the contents URL;
on failure the error is logged and re-thrown unchanged. -/
def fetchRepoContents (env : Env) (folder : String) :
    List Event × Except String (List GhEntry) :=
  match env.listing (contentsUrl folder) with
  | Except.error e =>
      ([Event.listReq (contentsUrl folder),
        Event.logLine ("Error fetching repository contents: " ++ e)], Except.error e)
  | Except.ok entries => ([Event.listReq (contentsUrl folder)], Except.ok entries)

/-- Model of `downloadFile` (lines 22-30): one GET of `fileUrl` with the
fixed config `family: 4, timeout: 10000`; the `arraybuffer` branch returns
the raw payload, the default branch the text; on failure the error is
logged and re-thrown unchanged. -/
def downloadFile (net : AxiosRequest → Except String AxiosData) (fileUrl : String)
    (responseType : String) : List Event × Except String DFile :=
  match net ⟨fileUrl, responseType, 4, 10000⟩ with
  | Except.error e =>
      ([Event.fileReq ⟨fileUrl, responseType, 4, 10000⟩,
        Event.logLine ("Error downloading file: " ++ e)], Except.error e)
  | Except.ok d =>
      ([Event.fileReq ⟨fileUrl, responseType, 4, 10000⟩],
        Except.ok (if responseType = "arraybuffer" then DFile.raw d
                   else DFile.text d.toStringUtf8))

/-- The request `downloadFile` issues for a default (text) download. -/
def textReq (f : RemoteFile) : AxiosRequest := ⟨f.downloadUrl, "utf8", 4, 10000⟩

/-- The request `downloadFile` issues for an `arraybuffer` download. -/
def bufReq (f : RemoteFile) : AxiosRequest := ⟨f.downloadUrl, "arraybuffer", 4, 10000⟩

/-- Model of `String.prototype.startsWith` on the underlying character
lists. -/
def strStartsWith (s p : String) : Bool := p.data.isPrefixOf s.data

/-- Model of `String.prototype.endsWith` on the underlying character
lists. -/
def strEndsWith (s p : String) : Bool := p.data.reverse.isPrefixOf s.data.reverse

/-- The chapter filter and projection of `getChapterFiles` (lines 34-39):
keep the entries whose name starts with `ch` and ends with `.adoc`. -/
def selectChapters (entries : List GhEntry) : List RemoteFile :=
  (entries.filter (fun f => strStartsWith f.name "ch" && strEndsWith f.name ".adoc")).map
    (fun f => ⟨f.name, f.download_url⟩)

/-- The unfiltered projection used by `getCodeFiles` / `getImageFiles`
(lines 44-47, 66-69). -/
def mapRemote (entries : List GhEntry) : List RemoteFile :=
  entries.map (fun f => ⟨f.name, f.download_url⟩)

/-- Model of `getChapterFiles` (lines 32-40). -/
def getChapterFiles (env : Env) : List Event × Except String (List RemoteFile) :=
  match fetchRepoContents env "" with
  | (evs, Except.error e) => (evs, Except.error e)
  | (evs, Except.ok repoContents) => (evs, Except.ok (selectChapters repoContents))

/-- Model of `getCodeFiles` (lines 42-48). -/
def getCodeFiles (env : Env) : List Event × Except String (List RemoteFile) :=
  match fetchRepoContents env "code" with
  | (evs, Except.error e) => (evs, Except.error e)
  | (evs, Except.ok codeContents) => (evs, Except.ok (mapRemote codeContents))

/-- Model of `getImageFiles` (lines 64-70). -/
def getImageFiles (env : Env) : List Event × Except String (List RemoteFile) :=
  match fetchRepoContents env "images" with
  | (evs, Except.error e) => (evs, Except.error e)
  | (evs, Except.ok imageContents) => (evs, Except.ok (mapRemote imageContents))

/-- Model of `Promise.all(files.map(file => downloadFile(...)))`: every
download is launched (all requests and log lines appear in the trace) and
the join rejects with the first rejection in list order, otherwise yields
the contents in input order. -/
def downloadAll (net : AxiosRequest → Except String AxiosData)
    (files : List RemoteFile) (responseType : String) :
    List Event × Except String (List DFile) :=
  match files with
  | [] => ([], Except.ok [])
  | f :: fs =>
    match downloadFile net f.downloadUrl responseType, downloadAll net fs responseType with
    | (evs, r), (evss, rs) =>
        (evs ++ evss,
          match r, rs with
          | Except.ok d, Except.ok ds => Except.ok (d :: ds)
          | Except.error e, _ => Except.error e
          | Except.ok _, Except.error e => Except.error e)

/-- Model of `mergeFiles` (lines 90-104): download all chapter texts,
rewrite the image directives of each, join with a blank-line separator. -/
def mergeFiles (net : AxiosRequest → Except String AxiosData)
    (files : List RemoteFile) : List Event × Except String String :=
  match downloadAll net files "utf8" with
  | (evs, Except.error e) => (evs, Except.error e)
  | (evs, Except.ok contents) =>
      (evs, Except.ok (joinSep "\n\n" (contents.map (fun c => rewriteImages c.asString))))

/-! ## Filesystem world and the staging / rendering stages -/

/-- Model of `path.join` for the simple segments used here; the `./` prefix
normalization performed by Node is elided (both spellings denote the same
location throughout the model). -/
def pathJoin (a b : String) : String := a ++ "/" ++ b

/-- String prefix test on the underlying character lists (used to decide
which paths live under a directory being removed). -/
def strPref (p s : String) : Bool := p.data.isPrefixOf s.data

/-- Filesystem and trace state threaded through the effectful stages. -/
structure World where
  dirs : List String
  files : List (String × DFile)
  events : List Event
deriving DecidableEq

/-- Append trace events. -/
def World.addEvents (w : World) (evs : List Event) : World :=
  { w with events := w.events ++ evs }

/-- Record a console log line. -/
def World.log (w : World) (s : String) : World :=
  w.addEvents [Event.logLine s]

/-- Model of `fs.ensureDir`: create the directory if missing. -/
def World.ensureDir (w : World) (d : String) : World :=
  { w with dirs := if d ∈ w.dirs then w.dirs else d :: w.dirs }

/-- Model of `fs.outputFile` / `fs.writeFile`: record the written file
(the parent-directory creation of `outputFile` is elided, the code always
ensures the directory first). -/
def World.writeFile (w : World) (p : String) (c : DFile) : World :=
  { w with files := (p, c) :: w.files }

/-- Model of `fs.remove` on a directory: drop the directory and everything
under it. -/
def World.removeTree (w : World) (p : String) : World :=
  { w with dirs := w.dirs.filter (fun d => !(strPref p d)),
           files := w.files.filter (fun f => !(strPref p f.1)) }

/-- Whether a file exists at path `p`. -/
def World.hasFile (w : World) (p : String) : Bool :=
  w.files.any (fun f => f.1 == p)

/-- Write the staged files of a batch: one write per input file, matched to
its content by position (lines 56-59, 80-83). -/
def writeAll (dir : String) : World → List RemoteFile → List DFile → World
  | w, f :: fs, c :: cs => writeAll dir (w.writeFile (pathJoin dir f.name) c) fs cs
  | w, _, _ => w

/-- Model of `createCodeFiles` (lines 50-62): download all contents, ensure
the `code` subdirectory, write all files. -/
def createCodeFiles (env : Env) (files : List RemoteFile) (w : World) :
    World × Except String Unit :=
  match downloadAll env.net files "utf8" with
  | (evs, Except.error e) => (w.addEvents evs, Except.error e)
  | (evs, Except.ok contents) =>
      (writeAll (pathJoin TEMP_DIR "code")
        ((w.addEvents evs).ensureDir (pathJoin TEMP_DIR "code")) files contents,
       Except.ok ())

/-- Model of `createImageFiles` (lines 73-87): like the code stage but with
`arraybuffer` downloads, the `images` subdirectory and a final log line. -/
def createImageFiles (env : Env) (files : List RemoteFile) (w : World) :
    World × Except String Unit :=
  match downloadAll env.net files "arraybuffer" with
  | (evs, Except.error e) => (w.addEvents evs, Except.error e)
  | (evs, Except.ok contents) =>
      ((writeAll (pathJoin TEMP_DIR "images")
          ((w.addEvents evs).ensureDir (pathJoin TEMP_DIR "images")) files contents).log
        ("Images saved to " ++ pathJoin TEMP_DIR "images"),
       Except.ok ())

/-! ## Rendering / export stage (lines 106-239) and `main` (lines 241-265) -/

/-- Opening part of the page shell wrapped around the converted HTML
(lines 134-158); literal braces are written as character escapes. -/
def mathJaxShellPre : String :=
  "\n        <!DOCTYPE html>\n        <html>\n        <head>\n            <script>\n                window.MathJax = \x7b\n                    tex: \x7b\n                        inlineMath: [['\\\\(', '\\\\)']],\n                        displayMath: [['\\\\[', '\\\\]']],\n                        processEscapes: true\n                    \x7d,\n                    svg: \x7b\n                        fontCache: 'global'\n                    \x7d\n                \x7d;\n            </script>\n            <script id=\"MathJax-script\" async src=\"https://cdn.jsdelivr.net/npm/mathjax@3/es5/tex-mml-svg.js\"></script>\n            <style>\n                img \x7b max-width: 100%; height: auto; \x7d\n                .imageblock \x7b text-align: center; margin: 1em 0; \x7d\n                .imageblock img \x7b margin: 0 auto; display: block; \x7d\n                .imageblock .title \x7b margin-top: 0.5em; font-style: italic; \x7d\n            </style>\n        </head>\n        <body>\n            "

/-- Closing part of the page shell (lines 160-162). -/
def mathJaxShellPost : String := "\n        </body>\n        </html>\n    "

/-- The wrapped page handed to the browser (line 134: `htmlWithMathJax`). -/
def htmlWithMathJax (html : String) : String :=
  mathJaxShellPre ++ html ++ mathJaxShellPost

/-- Model of `saveAsPDF` (lines 106-239): write the merged document to the
temp file, convert it (the asciidoctor options and the browser driving are
delegated to the opaque `Env` collaborators; the MathJax-readiness and
image-load waits catch and log their own failures, lines 181-216, so they
have no effect here), write the PDF, then remove the temp directory.  The
conversion input is the exact content just written to `merged.adoc`. -/
def saveAsPDF (env : Env) (mergedContent : String) (w : World) :
    World × Except String Unit :=
  let w1 := ((w.writeFile (pathJoin TEMP_DIR "merged.adoc") (DFile.text mergedContent)).log
      ("Images directory: " ++ pathJoin TEMP_DIR "images")).log
      "Converting AsciiDoc to HTML..."
  let html := env.convert mergedContent
  let w2 := ((((w1.log "Launching Puppeteer...").log "Setting page content...").log
      "Waiting for MathJax...").log "Waiting for images to load...").log
      "Generating PDF..."
  let w3 := w2.writeFile OUTPUT_FILE (DFile.text (env.renderPdf (htmlWithMathJax html)))
  (((w3.removeTree TEMP_DIR).log ("PDF saved as " ++ OUTPUT_FILE)), Except.ok ())

/-- The initial logging and temp-directory creation of `main`'s `try`
block (lines 243-248). -/
def mainPrep (w0 : World) : World :=
  ((((w0.log "Creating temporary directory...").ensureDir TEMP_DIR).log
      "Processing code files...").log "Processing image files...").log
      "Processing chapter files..."

/-- The staged part of `main`'s body (lines 250-259).  The `await`s inside
the `Promise.all` array literal (lines 250-254) evaluate sequentially: the
code listing completes before the code staging is launched, then the image
listing completes before the image staging is launched, then the chapter
listing runs; a listing rejection at that point aborts before the later
elements are evaluated, while a staging rejection is only observed at the
`Promise.all` join (first rejection in element order in this
linearization).  Only after the join does `mergeFiles` run, then
`saveAsPDF`. -/
def mainStages (env : Env) (w1 : World) : World × Except String Unit :=
  match getCodeFiles env with
  | (evs, Except.error e) => (w1.addEvents evs, Except.error e)
  | (evs, Except.ok codeFiles) =>
    match createCodeFiles env codeFiles (w1.addEvents evs) with
    | (w2, r1) =>
      match getImageFiles env with
      | (evs2, Except.error e) => (w2.addEvents evs2, Except.error e)
      | (evs2, Except.ok imageFiles) =>
        match createImageFiles env imageFiles (w2.addEvents evs2) with
        | (w3, r2) =>
          match getChapterFiles env with
          | (evs3, r3) =>
            match r1 with
            | Except.error e => (w3.addEvents evs3, Except.error e)
            | Except.ok _ =>
              match r2 with
              | Except.error e => (w3.addEvents evs3, Except.error e)
              | Except.ok _ =>
                match r3 with
                | Except.error e => (w3.addEvents evs3, Except.error e)
                | Except.ok chapterFiles =>
                  match mergeFiles env.net chapterFiles with
                  | (evs4, Except.error e) => ((w3.addEvents evs3).addEvents evs4, Except.error e)
                  | (evs4, Except.ok mergedContent) =>
                    match saveAsPDF env mergedContent
                        (((w3.addEvents evs3).addEvents evs4).log "Generating PDF...") with
                    | (w5, Except.error e) => (w5, Except.error e)
                    | (w5, Except.ok _) =>
                        (w5.log "Process completed successfully!", Except.ok ())

/-- The body of `main`'s `try` block: initial directory creation, then the
staged pipeline. -/
def mainBody (env : Env) (w0 : World) : World × Except String Unit :=
  mainStages env (mainPrep w0)

/-- Model of `main` (lines 241-265): the single top-level handler catches
any error of the body, logs it and swallows it, so the run always returns a
final world (named `jsMain` because Lean reserves `main`). -/
def jsMain (env : Env) (w0 : World) : World :=
  match mainBody env w0 with
  | (w, Except.ok _) => w
  | (w, Except.error e) => w.log ("Error: " ++ e)

/-! ## Lemmas about prefixes, occurrences and the scanner -/

/-- Does `pat` occur as a contiguous segment of `l`?  (Occurrence at some
suffix position.) -/
def hasSeg (pat : List Char) : List Char → Bool
  | [] => pat.isPrefixOf []
  | c :: rest => pat.isPrefixOf (c :: rest) || hasSeg pat rest

lemma isPrefixOf_exists {p l : List Char} : p.isPrefixOf l = true ↔ ∃ t, l = p ++ t := by
  induction p generalizing l with
  | nil => simp
  | cons a as ih =>
    cases l with
    | nil => simp
    | cons b bs =>
      rw [List.isPrefixOf_cons₂, Bool.and_eq_true, beq_iff_eq]
      constructor
      · rintro ⟨rfl, h⟩
        obtain ⟨t, rfl⟩ := ih.mp h
        exact ⟨t, rfl⟩
      · rintro ⟨t, ht⟩
        injection ht with h1 h2
        exact ⟨h1.symm, ih.mpr ⟨t, h2⟩⟩

lemma hasSeg_of_isPrefixOf {pat l : List Char} (h : pat.isPrefixOf l = true) :
    hasSeg pat l = true := by
  cases l <;> simp [hasSeg, h]

lemma hasSeg_false_head {pat : List Char} {c : Char} {rest : List Char}
    (h : hasSeg pat (c :: rest) = false) :
    pat.isPrefixOf (c :: rest) = false ∧ hasSeg pat rest = false := by
  simpa [hasSeg] using h

lemma splitBefore_spec {t : Char} :
    ∀ {cs pre post : List Char}, splitBefore t cs = some (pre, post) →
      cs = pre ++ t :: post ∧ t ∉ pre ∧ ∀ c ∈ pre, isLineTerm c = false := by
  intro cs
  induction cs with
  | nil => intro pre post h; simp [splitBefore] at h
  | cons c rest ih =>
    intro pre post h
    unfold splitBefore at h
    by_cases hc : c = t
    · rw [if_pos hc] at h
      rw [Option.some.injEq, Prod.mk.injEq] at h
      obtain ⟨h1, h2⟩ := h
      subst h1; subst h2; subst hc
      refine ⟨rfl, by simp, by simp⟩
    · rw [if_neg hc] at h
      by_cases hl : isLineTerm c = true
      · rw [if_pos hl] at h; exact absurd h (by simp)
      · rw [if_neg hl] at h
        rcases hs : splitBefore t rest with _ | ⟨a, b⟩ <;> rw [hs] at h
        · exact absurd h (by simp)
        · rw [Option.some.injEq, Prod.mk.injEq] at h
          obtain ⟨h1, h2⟩ := h
          subst h1; subst h2
          obtain ⟨e1, e2, e3⟩ := ih hs
          refine ⟨by rw [e1]; rfl, ?_, ?_⟩
          · intro hmem
            rcases List.mem_cons.mp hmem with h' | h'
            · exact hc h'.symm
            · exact e2 h'
          · intro d hd
            rcases List.mem_cons.mp hd with rfl | h'
            · exact Bool.not_eq_true _ ▸ (by simpa using hl)
            · exact e3 d h'

lemma splitBefore_append {t : Char} {xs ys : List Char}
    (h1 : t ∉ xs) (h2 : ∀ c ∈ xs, isLineTerm c = false) :
    splitBefore t (xs ++ t :: ys) = some (xs, ys) := by
  induction xs with
  | nil => simp [splitBefore]
  | cons c xs' ih =>
    have hct : ¬ c = t := fun hc => h1 (by simp [hc])
    have hcl : ¬ isLineTerm c = true := by
      simp [h2 c (by simp)]
    show splitBefore t (c :: (xs' ++ t :: ys)) = some (c :: xs', ys)
    unfold splitBefore
    rw [if_neg hct, if_neg hcl,
      ih (fun hm => h1 (by simp [hm])) (fun d hd => h2 d (by simp [hd]))]

lemma tryImageMatch_none_of_guard {cs : List Char}
    (h : imageMark.isPrefixOf cs = false) : tryImageMatch cs = none := by
  unfold tryImageMatch
  rw [if_neg (by simp [h])]

lemma tryImageMatch_spec {cs path alt rest2 : List Char}
    (h : tryImageMatch cs = some (path, alt, rest2)) :
    cs = imageMark ++ (path ++ ('[' :: (alt ++ (']' :: rest2))))
      ∧ '[' ∉ path ∧ (∀ c ∈ path, isLineTerm c = false)
      ∧ ']' ∉ alt ∧ (∀ c ∈ alt, isLineTerm c = false) := by
  unfold tryImageMatch at h
  by_cases hpre : imageMark.isPrefixOf cs = true
  · rw [if_pos hpre] at h
    obtain ⟨t0, ht0⟩ := isPrefixOf_exists.mp hpre
    have hdrop : cs.drop 7 = t0 := by rw [ht0]; exact List.drop_left' rfl
    rcases hs1 : splitBefore '[' (cs.drop 7) with _ | ⟨p1, r1⟩
    · simp only [hs1] at h
      exact absurd h (by simp)
    · simp only [hs1] at h
      rcases hs2 : splitBefore ']' r1 with _ | ⟨a1, r2⟩
      · simp only [hs2] at h
        exact absurd h (by simp)
      · simp only [hs2] at h
        rw [Option.some.injEq, Prod.mk.injEq, Prod.mk.injEq] at h
        obtain ⟨e1, e2, e3⟩ := h
        subst e1; subst e2; subst e3
        obtain ⟨q1, q2, q3⟩ := splitBefore_spec hs1
        obtain ⟨w1, w2, w3⟩ := splitBefore_spec hs2
        refine ⟨?_, q2, q3, w2, w3⟩
        rw [ht0, ← hdrop, q1, w1]
  · rw [if_neg hpre] at h
    exact absurd h (by simp)

lemma tryImageMatch_length {cs path alt rest2 : List Char}
    (h : tryImageMatch cs = some (path, alt, rest2)) : rest2.length + 9 ≤ cs.length := by
  have e := (tryImageMatch_spec h).1
  rw [e]
  simp [imageMark, List.length_append]
  omega

lemma tryImageMatch_isPrefixOf {cs : List Char} {x : List Char × List Char × List Char}
    (h : tryImageMatch cs = some x) : imageMark.isPrefixOf cs = true := by
  cases hb : imageMark.isPrefixOf cs with
  | false => rw [tryImageMatch_none_of_guard hb] at h; exact Option.noConfusion h
  | true => rfl

lemma scanFuel_congr : ∀ (f1 f2 : Nat) (cs : List Char), cs.length ≤ f1 → cs.length ≤ f2 →
    scanFuel f1 cs = scanFuel f2 cs := by
  intro f1
  induction f1 with
  | zero =>
    intro f2 cs h1 _
    have : cs = [] := List.eq_nil_of_length_eq_zero (Nat.le_zero.mp h1)
    subst this; cases f2 <;> rfl
  | succ f ih =>
    intro f2 cs h1 h2
    cases cs with
    | nil => cases f2 <;> rfl
    | cons c rest =>
      simp only [List.length_cons] at h1 h2
      cases f2 with
      | zero => omega
      | succ g =>
        simp only [scanFuel]
        rcases hm : tryImageMatch (c :: rest) with _ | ⟨p, a, r2⟩
        · simp only [hm]
          rw [ih g rest (by omega) (by omega)]
        · simp only [hm]
          have hl := tryImageMatch_length hm
          simp only [List.length_cons] at hl
          rw [ih g r2 (by omega) (by omega)]

lemma rewriteScan_nil : rewriteScan [] = [] := rfl

lemma rewriteScan_cons_some {c : Char} {rest path alt rest2 : List Char}
    (h : tryImageMatch (c :: rest) = some (path, alt, rest2)) :
    rewriteScan (c :: rest) =
      imageMark ++ (cleanImagePath path ++ ('[' :: (alt ++ (']' :: rewriteScan rest2)))) := by
  unfold rewriteScan
  have hl := tryImageMatch_length h
  simp only [List.length_cons, scanFuel, h]
  rw [scanFuel_congr rest.length rest2.length rest2 (by simp at hl; omega) (Nat.le_refl _)]
  simp [List.append_assoc]

lemma rewriteScan_cons_none {c : Char} {rest : List Char}
    (h : tryImageMatch (c :: rest) = none) :
    rewriteScan (c :: rest) = c :: rewriteScan rest := by
  unfold rewriteScan
  simp only [List.length_cons, scanFuel, h]

lemma mark_no_boundary_overlap {p rest t0 : List Char}
    (hb : p ++ rest = imageMark ++ t0) (hne : p ≠ []) (hlen : p.length < 7)
    (hrest : imageMark.isPrefixOf rest = true) : False := by
  obtain ⟨t1, rfl⟩ := isPrefixOf_exists.mp hrest
  have key : p ++ imageMark.take (7 - p.length) = imageMark := by
    have h7 : (p ++ (imageMark ++ t1)).take 7 = imageMark := by
      rw [hb]; exact List.take_left' rfl
    rw [List.take_append_eq_append_take, List.take_of_length_le (Nat.le_of_lt hlen),
      List.take_append_eq_append_take] at h7
    have hml : imageMark.length = 7 := rfl
    have hz : 7 - p.length - imageMark.length = 0 := by omega
    rw [hz] at h7
    simpa using h7
  have hp : p = imageMark.take p.length := by
    have h := congrArg (List.take p.length) key
    rwa [List.take_left] at h
  have hjpos : 1 ≤ p.length := List.length_pos.mpr hne
  rw [hp] at key
  have hlen' : (imageMark.take p.length).length = p.length := by
    have hml : imageMark.length = 7 := rfl
    simp [List.length_take]
    omega
  rw [hlen'] at key
  set j := p.length with hj
  interval_cases j <;> exact absurd key (by decide)

lemma mark_prefix_of_long {p rest t0 : List Char}
    (hb : p ++ rest = imageMark ++ t0) (hlen : 7 ≤ p.length) :
    imageMark.isPrefixOf p = true := by
  have h7 : p.take 7 = imageMark := by
    have := congrArg (List.take 7) hb
    rw [List.take_append_eq_append_take] at this
    have hz : 7 - p.length = 0 := by omega
    rw [hz] at this
    simp at this
    rw [this]
    exact List.take_left' rfl
  exact isPrefixOf_exists.mpr ⟨p.drop 7, by rw [← h7]; simp⟩

lemma rewriteScan_copy {pre rest : List Char}
    (hpre : hasSeg imageMark pre = false)
    (hrest : imageMark.isPrefixOf rest = true) :
    rewriteScan (pre ++ rest) = pre ++ rewriteScan rest := by
  induction pre with
  | nil => simp
  | cons c pre' ih =>
    obtain ⟨h1, h2⟩ := hasSeg_false_head hpre
    have hnm : imageMark.isPrefixOf (c :: pre' ++ rest) = false := by
      cases hbm : imageMark.isPrefixOf (c :: pre' ++ rest) with
      | false => rfl
      | true =>
        obtain ⟨t0, ht0⟩ := isPrefixOf_exists.mp hbm
        rw [List.cons_append] at ht0
        by_cases hlen : (c :: pre').length < 7
        · exact absurd (mark_no_boundary_overlap
            (show (c :: pre') ++ rest = imageMark ++ t0 by rw [List.cons_append]; exact ht0)
            (by simp) hlen hrest) (by simp)
        · have := mark_prefix_of_long
            (show (c :: pre') ++ rest = imageMark ++ t0 by rw [List.cons_append]; exact ht0)
            (by omega)
          rw [this] at h1
          exact Bool.noConfusion h1
    have hstep : rewriteScan (c :: (pre' ++ rest)) = c :: rewriteScan (pre' ++ rest) :=
      rewriteScan_cons_none (tryImageMatch_none_of_guard (by
        rw [← List.cons_append]; exact hnm))
    rw [List.cons_append, hstep, ih h2, List.cons_append]

lemma tryImageMatch_directive {p a post : List Char}
    (hp1 : '[' ∉ p) (hp2 : ∀ c ∈ p, isLineTerm c = false)
    (ha1 : ']' ∉ a) (ha2 : ∀ c ∈ a, isLineTerm c = false) :
    tryImageMatch (imageMark ++ (p ++ ('[' :: (a ++ (']' :: post))))) = some (p, a, post) := by
  unfold tryImageMatch
  rw [if_pos (isPrefixOf_exists.mpr ⟨_, rfl⟩)]
  rw [show (imageMark ++ (p ++ ('[' :: (a ++ (']' :: post))))).drop 7
        = p ++ ('[' :: (a ++ (']' :: post))) from List.drop_left' rfl]
  simp only [splitBefore_append hp1 hp2, splitBefore_append ha1 ha2]

lemma rewriteScan_directive {pre p a post : List Char}
    (hpre : hasSeg imageMark pre = false)
    (hp1 : '[' ∉ p) (hp2 : ∀ c ∈ p, isLineTerm c = false)
    (ha1 : ']' ∉ a) (ha2 : ∀ c ∈ a, isLineTerm c = false) :
    rewriteScan (pre ++ (imageMark ++ (p ++ ('[' :: (a ++ (']' :: post)))))) =
      pre ++ (imageMark ++ (cleanImagePath p ++ ('[' :: (a ++ (']' :: rewriteScan post))))) := by
  rw [rewriteScan_copy hpre (isPrefixOf_exists.mpr ⟨_, rfl⟩)]
  congr 1
  exact rewriteScan_cons_some (@tryImageMatch_directive p a post hp1 hp2 ha1 ha2)

lemma rewriteScan_id {cs : List Char} (h : hasSeg imageMark cs = false) :
    rewriteScan cs = cs := by
  induction cs with
  | nil => rfl
  | cons c rest ih =>
    obtain ⟨h1, h2⟩ := hasSeg_false_head h
    rw [rewriteScan_cons_none (tryImageMatch_none_of_guard h1), ih h2]

lemma partsFuel_source_flatten :
    ∀ (fuel : Nat) (cs : List Char), cs.length ≤ fuel →
      ((partsFuel fuel cs).map partSource).flatten = cs := by
  intro fuel
  induction fuel with
  | zero =>
    intro cs h
    have hnil : cs = [] := List.eq_nil_of_length_eq_zero (Nat.le_zero.mp h)
    subst hnil; rfl
  | succ f ih =>
    intro cs h
    cases cs with
    | nil => rfl
    | cons c rest =>
      simp only [List.length_cons] at h
      simp only [partsFuel]
      rcases hm : tryImageMatch (c :: rest) with _ | ⟨p, a, r2⟩
      · simp only [hm, List.map_cons, List.flatten_cons, partSource]
        rw [ih rest (by omega)]
        rfl
      · have hspec := (tryImageMatch_spec hm).1
        have hlen := tryImageMatch_length hm
        simp only [List.length_cons] at hlen
        simp only [hm, List.map_cons, List.flatten_cons, partSource]
        rw [ih r2 (by omega), hspec]
        simp [List.append_assoc]

lemma partsFuel_output_flatten :
    ∀ (fuel : Nat) (cs : List Char), cs.length ≤ fuel →
      ((partsFuel fuel cs).map partOutput).flatten = scanFuel fuel cs := by
  intro fuel
  induction fuel with
  | zero =>
    intro cs h
    have hnil : cs = [] := List.eq_nil_of_length_eq_zero (Nat.le_zero.mp h)
    subst hnil; rfl
  | succ f ih =>
    intro cs h
    cases cs with
    | nil => rfl
    | cons c rest =>
      simp only [List.length_cons] at h
      simp only [partsFuel, scanFuel]
      rcases hm : tryImageMatch (c :: rest) with _ | ⟨p, a, r2⟩
      · simp only [hm, List.map_cons, List.flatten_cons, partOutput]
        rw [ih rest (by omega)]
        rfl
      · have hlen := tryImageMatch_length hm
        simp only [List.length_cons] at hlen
        simp only [hm, List.map_cons, List.flatten_cons, partOutput]
        rw [ih r2 (by omega)]
        simp [List.append_assoc]

lemma scanParts_source (cs : List Char) :
    ((scanParts cs).map partSource).flatten = cs :=
  partsFuel_source_flatten cs.length cs (Nat.le_refl _)

lemma scanParts_output (cs : List Char) :
    ((scanParts cs).map partOutput).flatten = rewriteScan cs :=
  partsFuel_output_flatten cs.length cs (Nat.le_refl _)

lemma strData_append (a b : String) : (a ++ b).data = a.data ++ b.data := by
  cases a; cases b; rfl

lemma joinSep_mem_seg {sep x : String} {l : List String} (hx : x ∈ l) :
    ∃ u v, (joinSep sep l).data = u ++ (x.data ++ v) := by
  induction l with
  | nil => cases hx
  | cons a rest ih =>
    cases rest with
    | nil =>
      rcases List.mem_singleton.mp hx with rfl
      exact ⟨[], [], by simp [joinSep]⟩
    | cons b rs =>
      rcases List.mem_cons.mp hx with rfl | hx'
      · refine ⟨[], sep.data ++ (joinSep sep (b :: rs)).data, ?_⟩
        simp [joinSep, strData_append, List.append_assoc]
      · obtain ⟨u, v, huv⟩ := ih hx'
        refine ⟨(a.data ++ sep.data) ++ u, v, ?_⟩
        simp [joinSep, strData_append, huv, List.append_assoc]

/-! ## Lemmas about downloads -/

lemma downloadFile_ok {net : AxiosRequest → Except String AxiosData} {u rt : String}
    {d : AxiosData} (h : net ⟨u, rt, 4, 10000⟩ = Except.ok d) :
    downloadFile net u rt = ([Event.fileReq ⟨u, rt, 4, 10000⟩],
      Except.ok (if rt = "arraybuffer" then DFile.raw d else DFile.text d.toStringUtf8)) := by
  simp [downloadFile, h]

lemma downloadFile_error {net : AxiosRequest → Except String AxiosData} {u rt e : String}
    (h : net ⟨u, rt, 4, 10000⟩ = Except.error e) :
    downloadFile net u rt = ([Event.fileReq ⟨u, rt, 4, 10000⟩,
      Event.logLine ("Error downloading file: " ++ e)], Except.error e) := by
  simp [downloadFile, h]

lemma downloadFile_text {net : AxiosRequest → Except String AxiosData} {f : RemoteFile}
    {s : String} (h : net (textReq f) = Except.ok (AxiosData.str s)) :
    downloadFile net f.downloadUrl "utf8" = ([Event.fileReq (textReq f)],
      Except.ok (DFile.text s)) := by
  have h' : net ⟨f.downloadUrl, "utf8", 4, 10000⟩ = Except.ok (AxiosData.str s) := h
  rw [downloadFile_ok h']
  rw [if_neg (show ¬("utf8" = "arraybuffer") by decide)]
  rfl

lemma downloadAll_texts {net : AxiosRequest → Except String AxiosData}
    {files : List RemoteFile} {t : RemoteFile → String}
    (h : ∀ f ∈ files, net (textReq f) = Except.ok (AxiosData.str (t f))) :
    (downloadAll net files "utf8").2 =
      Except.ok (files.map fun f => DFile.text (t f)) := by
  induction files with
  | nil => rfl
  | cons f fs ih =>
    have hf := downloadFile_text (h f (by simp))
    have hrest := ih (fun g hg => h g (List.mem_cons_of_mem _ hg))
    rcases hda : downloadAll net fs "utf8" with ⟨evss, rs⟩
    rw [hda] at hrest
    simp at hrest
    simp only [downloadAll, hf, hda, hrest]
    rfl

lemma downloadAll_error_of_mem {net : AxiosRequest → Except String AxiosData}
    {files : List RemoteFile} (rt : String) {f : RemoteFile}
    (hf : f ∈ files) (he : ∃ e, net ⟨f.downloadUrl, rt, 4, 10000⟩ = Except.error e) :
    ∃ e, (downloadAll net files rt).2 = Except.error e := by
  induction files with
  | nil => cases hf
  | cons g fs ih =>
    rcases List.mem_cons.mp hf with rfl | hf'
    · obtain ⟨e, he⟩ := he
      refine ⟨e, ?_⟩
      rcases hda : downloadAll net fs rt with ⟨evss, rs⟩
      simp only [downloadAll, downloadFile_error he, hda]
    · obtain ⟨e, hrs⟩ := ih hf'
      rcases hda : downloadAll net fs rt with ⟨evss, rs⟩
      rw [hda] at hrs
      simp at hrs
      subst hrs
      rcases hdg : downloadFile net g.downloadUrl rt with ⟨evs, r⟩
      cases r with
      | error e2 => exact ⟨e2, by simp only [downloadAll, hdg, hda]⟩
      | ok d => exact ⟨e, by simp only [downloadAll, hdg, hda]⟩

lemma downloadAll_ok_of_all {net : AxiosRequest → Except String AxiosData}
    {files : List RemoteFile} (rt : String)
    (h : ∀ f ∈ files, ∃ d, net ⟨f.downloadUrl, rt, 4, 10000⟩ = Except.ok d) :
    ∃ ds, (downloadAll net files rt).2 = Except.ok ds := by
  induction files with
  | nil => exact ⟨[], rfl⟩
  | cons f fs ih =>
    obtain ⟨d, hd⟩ := h f (by simp)
    obtain ⟨ds, hds⟩ := ih (fun g hg => h g (List.mem_cons_of_mem _ hg))
    rcases hda : downloadAll net fs rt with ⟨evss, rs⟩
    rw [hda] at hds
    simp at hds
    subst hds
    refine ⟨(if rt = "arraybuffer" then DFile.raw d else DFile.text d.toStringUtf8) :: ds, ?_⟩
    simp only [downloadAll, downloadFile_ok hd, hda]

/-! ## Lemmas about the world state -/

@[simp] lemma World.addEvents_dirs (w : World) (evs : List Event) :
    (w.addEvents evs).dirs = w.dirs := rfl

@[simp] lemma World.addEvents_files (w : World) (evs : List Event) :
    (w.addEvents evs).files = w.files := rfl

@[simp] lemma World.log_dirs (w : World) (s : String) : (w.log s).dirs = w.dirs := rfl

@[simp] lemma World.log_files (w : World) (s : String) : (w.log s).files = w.files := rfl

@[simp] lemma World.ensureDir_files (w : World) (d : String) :
    (w.ensureDir d).files = w.files := rfl

@[simp] lemma World.writeFile_dirs (w : World) (p : String) (c : DFile) :
    (w.writeFile p c).dirs = w.dirs := rfl

@[simp] lemma World.hasFile_addEvents (w : World) (evs : List Event) (p : String) :
    (w.addEvents evs).hasFile p = w.hasFile p := rfl

@[simp] lemma World.hasFile_log (w : World) (s p : String) :
    (w.log s).hasFile p = w.hasFile p := rfl

@[simp] lemma World.hasFile_ensureDir (w : World) (d p : String) :
    (w.ensureDir d).hasFile p = w.hasFile p := rfl

lemma World.hasFile_writeFile (w : World) (q p : String) (c : DFile) :
    (w.writeFile q c).hasFile p = ((q == p) || w.hasFile p) := rfl

lemma World.ensureDir_mem_self (w : World) (d : String) : d ∈ (w.ensureDir d).dirs := by
  unfold World.ensureDir
  by_cases h : d ∈ w.dirs <;> simp [h]

lemma World.ensureDir_mem_of {w : World} {d : String} (x : String) (h : d ∈ w.dirs) :
    d ∈ (w.ensureDir x).dirs := by
  unfold World.ensureDir
  by_cases hx : x ∈ w.dirs <;> simp [hx, h]

lemma writeAll_dirs (dir : String) :
    ∀ (w : World) (fs : List RemoteFile) (cs : List DFile),
      (writeAll dir w fs cs).dirs = w.dirs := by
  intro w fs
  induction fs generalizing w with
  | nil => intro cs; cases cs <;> rfl
  | cons f fs ih =>
    intro cs
    cases cs with
    | nil => rfl
    | cons c cs' => rw [show writeAll dir w (f :: fs) (c :: cs')
        = writeAll dir (w.writeFile (pathJoin dir f.name) c) fs cs' from rfl, ih]; rfl

lemma hasFile_writeAll_false {dir p : String} (hne : ∀ n, pathJoin dir n ≠ p) :
    ∀ (w : World) (fs : List RemoteFile) (cs : List DFile),
      w.hasFile p = false → (writeAll dir w fs cs).hasFile p = false := by
  intro w fs
  induction fs generalizing w with
  | nil => intro cs h; cases cs <;> simpa [writeAll]
  | cons f fs ih =>
    intro cs h
    cases cs with
    | nil => simpa [writeAll]
    | cons c cs' =>
      rw [show writeAll dir w (f :: fs) (c :: cs')
        = writeAll dir (w.writeFile (pathJoin dir f.name) c) fs cs' from rfl]
      apply ih
      rw [World.hasFile_writeFile, h]
      simp [beq_eq_false_iff_ne.mpr (hne f.name)]

lemma removeTree_self_not_mem (w : World) : TEMP_DIR ∉ (w.removeTree TEMP_DIR).dirs := by
  intro h
  have hmem := List.of_mem_filter h
  rw [show strPref TEMP_DIR TEMP_DIR = true from by decide] at hmem
  simp at hmem

lemma hasFile_removeTree_true {w : World} {pre p : String}
    (hp : strPref pre p = false) (h : w.hasFile p = true) :
    (w.removeTree pre).hasFile p = true := by
  unfold World.hasFile World.removeTree at *
  simp only [List.any_eq_true] at h ⊢
  obtain ⟨f, hf, hfp⟩ := h
  refine ⟨f, List.mem_filter.mpr ⟨hf, ?_⟩, hfp⟩
  have hfe : f.1 = p := by simpa using hfp
  rw [hfe, hp]
  rfl

/-! ## Paths written by the staging stages never collide with the PDF path -/

lemma codePath_ne_output (n : String) :
    pathJoin (pathJoin TEMP_DIR "code") n ≠ OUTPUT_FILE := by
  intro h
  have hd := congrArg String.data h
  rw [show pathJoin (pathJoin TEMP_DIR "code") n = "./temp_adoc_files/code/" ++ n from rfl] at hd
  rw [strData_append] at hd
  rw [show ("./temp_adoc_files/code/" : String).data
      = '.' :: ("/temp_adoc_files/code/" : String).data from rfl] at hd
  rw [show OUTPUT_FILE.data = 'm' :: ("astering-bitcoin.pdf" : String).data from rfl] at hd
  injection hd with h1 _
  exact absurd h1 (by decide)

lemma imagesPath_ne_output (n : String) :
    pathJoin (pathJoin TEMP_DIR "images") n ≠ OUTPUT_FILE := by
  intro h
  have hd := congrArg String.data h
  rw [show pathJoin (pathJoin TEMP_DIR "images") n = "./temp_adoc_files/images/" ++ n from rfl] at hd
  rw [strData_append] at hd
  rw [show ("./temp_adoc_files/images/" : String).data
      = '.' :: ("/temp_adoc_files/images/" : String).data from rfl] at hd
  rw [show OUTPUT_FILE.data = 'm' :: ("astering-bitcoin.pdf" : String).data from rfl] at hd
  injection hd with h1 _
  exact absurd h1 (by decide)

/-! ## Stage-level lemmas -/

lemma fetchRepoContents_ok {env : Env} {folder : String} {l : List GhEntry}
    (h : env.listing (contentsUrl folder) = Except.ok l) :
    fetchRepoContents env folder = ([Event.listReq (contentsUrl folder)], Except.ok l) := by
  simp [fetchRepoContents, h]

lemma fetchRepoContents_error {env : Env} {folder e : String}
    (h : env.listing (contentsUrl folder) = Except.error e) :
    fetchRepoContents env folder = ([Event.listReq (contentsUrl folder),
      Event.logLine ("Error fetching repository contents: " ++ e)], Except.error e) := by
  simp [fetchRepoContents, h]

lemma getChapterFiles_ok {env : Env} {root : List GhEntry}
    (h : env.listing (contentsUrl "") = Except.ok root) :
    getChapterFiles env = ([Event.listReq (contentsUrl "")],
      Except.ok (selectChapters root)) := by
  simp only [getChapterFiles, fetchRepoContents_ok h]

lemma getCodeFiles_ok {env : Env} {l : List GhEntry}
    (h : env.listing (contentsUrl "code") = Except.ok l) :
    getCodeFiles env = ([Event.listReq (contentsUrl "code")],
      Except.ok (mapRemote l)) := by
  simp only [getCodeFiles, fetchRepoContents_ok h]

lemma getImageFiles_ok {env : Env} {l : List GhEntry}
    (h : env.listing (contentsUrl "images") = Except.ok l) :
    getImageFiles env = ([Event.listReq (contentsUrl "images")],
      Except.ok (mapRemote l)) := by
  simp only [getImageFiles, fetchRepoContents_ok h]

lemma createCodeFiles_mem_dirs {env : Env} {files : List RemoteFile} {w : World}
    {d : String} (h : d ∈ w.dirs) : d ∈ (createCodeFiles env files w).1.dirs := by
  rcases hda : downloadAll env.net files "utf8" with ⟨evs, r⟩
  cases r with
  | error e =>
    simp only [createCodeFiles, hda]
    simpa using h
  | ok contents =>
    simp only [createCodeFiles, hda]
    rw [writeAll_dirs]
    exact World.ensureDir_mem_of _ (by simpa using h)

lemma createImageFiles_mem_dirs {env : Env} {files : List RemoteFile} {w : World}
    {d : String} (h : d ∈ w.dirs) : d ∈ (createImageFiles env files w).1.dirs := by
  rcases hda : downloadAll env.net files "arraybuffer" with ⟨evs, r⟩
  cases r with
  | error e =>
    simp only [createImageFiles, hda]
    simpa using h
  | ok contents =>
    simp only [createImageFiles, hda, World.log_dirs]
    rw [writeAll_dirs]
    exact World.ensureDir_mem_of _ (by simpa using h)

lemma createCodeFiles_hasFile_false {env : Env} {files : List RemoteFile} {w : World}
    (h : w.hasFile OUTPUT_FILE = false) :
    (createCodeFiles env files w).1.hasFile OUTPUT_FILE = false := by
  rcases hda : downloadAll env.net files "utf8" with ⟨evs, r⟩
  cases r with
  | error e =>
    simp only [createCodeFiles, hda]
    simpa using h
  | ok contents =>
    simp only [createCodeFiles, hda]
    exact hasFile_writeAll_false codePath_ne_output _ _ _ (by simpa using h)

lemma createImageFiles_hasFile_false {env : Env} {files : List RemoteFile} {w : World}
    (h : w.hasFile OUTPUT_FILE = false) :
    (createImageFiles env files w).1.hasFile OUTPUT_FILE = false := by
  rcases hda : downloadAll env.net files "arraybuffer" with ⟨evs, r⟩
  cases r with
  | error e =>
    simp only [createImageFiles, hda]
    simpa using h
  | ok contents =>
    simp only [createImageFiles, hda, World.hasFile_log]
    exact hasFile_writeAll_false imagesPath_ne_output _ _ _ (by simpa using h)

lemma createCodeFiles_ok_of_all {env : Env} {files : List RemoteFile} (w : World)
    (h : ∀ f ∈ files, ∃ d, env.net (textReq f) = Except.ok d) :
    (createCodeFiles env files w).2 = Except.ok () := by
  obtain ⟨ds, hds⟩ := downloadAll_ok_of_all "utf8" h
  rcases hda : downloadAll env.net files "utf8" with ⟨evs, r⟩
  rw [hda] at hds
  simp at hds
  subst hds
  simp only [createCodeFiles, hda]

lemma createImageFiles_ok_of_all {env : Env} {files : List RemoteFile} (w : World)
    (h : ∀ f ∈ files, ∃ d, env.net (bufReq f) = Except.ok d) :
    (createImageFiles env files w).2 = Except.ok () := by
  obtain ⟨ds, hds⟩ := downloadAll_ok_of_all "arraybuffer" h
  rcases hda : downloadAll env.net files "arraybuffer" with ⟨evs, r⟩
  rw [hda] at hds
  simp at hds
  subst hds
  simp only [createImageFiles, hda]

lemma mergeFiles_ok_of_texts {net : AxiosRequest → Except String AxiosData}
    {files : List RemoteFile} {t : RemoteFile → String}
    (h : ∀ f ∈ files, net (textReq f) = Except.ok (AxiosData.str (t f))) :
    (mergeFiles net files).2 =
      Except.ok (joinSep "\n\n" (files.map fun f => rewriteImages (t f))) := by
  have hd := downloadAll_texts h
  rcases hda : downloadAll net files "utf8" with ⟨evs, r⟩
  rw [hda] at hd
  simp at hd
  subst hd
  simp only [mergeFiles, hda, List.map_map]
  rfl

lemma mergeFiles_error_of_mem {net : AxiosRequest → Except String AxiosData}
    {files : List RemoteFile} {f : RemoteFile} (hf : f ∈ files)
    (he : ∃ e, net (textReq f) = Except.error e) :
    ∃ e, (mergeFiles net files).2 = Except.error e := by
  obtain ⟨e, hda2⟩ := downloadAll_error_of_mem "utf8" hf he
  rcases hda : downloadAll net files "utf8" with ⟨evs, r⟩
  rw [hda] at hda2
  simp at hda2
  subst hda2
  exact ⟨e, by simp only [mergeFiles, hda]⟩

lemma saveAsPDF_ok (env : Env) (m : String) (w : World) :
    (saveAsPDF env m w).2 = Except.ok () := rfl

lemma saveAsPDF_not_temp (env : Env) (m : String) (w : World) :
    TEMP_DIR ∉ (saveAsPDF env m w).1.dirs := by
  simp only [saveAsPDF, World.log_dirs]
  exact removeTree_self_not_mem _

lemma saveAsPDF_hasFile_output (env : Env) (m : String) (w : World) :
    (saveAsPDF env m w).1.hasFile OUTPUT_FILE = true := by
  simp only [saveAsPDF, World.hasFile_log]
  apply hasFile_removeTree_true (by decide)
  rw [World.hasFile_writeFile]
  simp

/-! ## Case analysis along the pipeline spine -/

lemma mainStages_cases (env : Env) (w1 : World) (hT : TEMP_DIR ∈ w1.dirs) :
    ((mainStages env w1).2 = Except.ok () ∨ TEMP_DIR ∈ (mainStages env w1).1.dirs)
  ∧ ((mainStages env w1).2 = Except.ok () → TEMP_DIR ∉ (mainStages env w1).1.dirs)
  ∧ (w1.hasFile OUTPUT_FILE = false → ∀ e, (mainStages env w1).2 = Except.error e →
        (mainStages env w1).1.hasFile OUTPUT_FILE = false)
  ∧ ((mainStages env w1).2 = Except.ok () →
        (mainStages env w1).1.hasFile OUTPUT_FILE = true) := by
  rcases hgc : getCodeFiles env with ⟨evs, rc⟩
  cases rc with
  | error e0 =>
    simp only [mainStages, hgc]
    exact ⟨Or.inr (by simpa using hT), by simp, fun hp _ _ => by simpa using hp, by simp⟩
  | ok codeFiles =>
    rcases hcc : createCodeFiles env codeFiles (w1.addEvents evs) with ⟨w2, r1⟩
    have hT2 : TEMP_DIR ∈ w2.dirs := by
      have h := @createCodeFiles_mem_dirs env codeFiles (w1.addEvents evs) TEMP_DIR
        (by simpa using hT)
      rwa [hcc] at h
    have hP2 : w1.hasFile OUTPUT_FILE = false → w2.hasFile OUTPUT_FILE = false := by
      intro hp
      have h := @createCodeFiles_hasFile_false env codeFiles (w1.addEvents evs)
        (by simpa using hp)
      rwa [hcc] at h
    rcases hgi : getImageFiles env with ⟨evs2, ri⟩
    cases ri with
    | error e0 =>
      simp only [mainStages, hgc, hcc, hgi]
      exact ⟨Or.inr (by simpa using hT2), by simp,
        fun hp _ _ => by simpa using hP2 hp, by simp⟩
    | ok imageFiles =>
      rcases hci : createImageFiles env imageFiles (w2.addEvents evs2) with ⟨w3, r2⟩
      have hT3 : TEMP_DIR ∈ w3.dirs := by
        have h := @createImageFiles_mem_dirs env imageFiles (w2.addEvents evs2) TEMP_DIR
          (by simpa using hT2)
        rwa [hci] at h
      have hP3 : w1.hasFile OUTPUT_FILE = false → w3.hasFile OUTPUT_FILE = false := by
        intro hp
        have h := @createImageFiles_hasFile_false env imageFiles (w2.addEvents evs2)
          (by simpa using hP2 hp)
        rwa [hci] at h
      rcases hgch : getChapterFiles env with ⟨evs3, r3⟩
      cases r1 with
      | error e1 =>
        simp only [mainStages, hgc, hcc, hgi, hci, hgch]
        exact ⟨Or.inr (by simpa using hT3), by simp,
          fun hp _ _ => by simpa using hP3 hp, by simp⟩
      | ok _ =>
        cases r2 with
        | error e2 =>
          simp only [mainStages, hgc, hcc, hgi, hci, hgch]
          exact ⟨Or.inr (by simpa using hT3), by simp,
            fun hp _ _ => by simpa using hP3 hp, by simp⟩
        | ok _ =>
          cases r3 with
          | error e3 =>
            simp only [mainStages, hgc, hcc, hgi, hci, hgch]
            exact ⟨Or.inr (by simpa using hT3), by simp,
              fun hp _ _ => by simpa using hP3 hp, by simp⟩
          | ok chapterFiles =>
            rcases hmg : mergeFiles env.net chapterFiles with ⟨evs4, rm⟩
            cases rm with
            | error e4 =>
              simp only [mainStages, hgc, hcc, hgi, hci, hgch, hmg]
              exact ⟨Or.inr (by simpa using hT3), by simp,
                fun hp _ _ => by simpa using hP3 hp, by simp⟩
            | ok mergedContent =>
              rcases hsp : saveAsPDF env mergedContent
                  (((w3.addEvents evs3).addEvents evs4).log "Generating PDF...")
                with ⟨w5, rp⟩
              have hrp : rp = Except.ok () := by
                have h := saveAsPDF_ok env mergedContent
                  (((w3.addEvents evs3).addEvents evs4).log "Generating PDF...")
                rwa [hsp] at h
              subst hrp
              have hT5 : TEMP_DIR ∉ w5.dirs := by
                have h := saveAsPDF_not_temp env mergedContent
                  (((w3.addEvents evs3).addEvents evs4).log "Generating PDF...")
                rwa [hsp] at h
              have hF5 : w5.hasFile OUTPUT_FILE = true := by
                have h := saveAsPDF_hasFile_output env mergedContent
                  (((w3.addEvents evs3).addEvents evs4).log "Generating PDF...")
                rwa [hsp] at h
              simp only [mainStages, hgc, hcc, hgi, hci, hgch, hmg, hsp]
              exact ⟨Or.inl (by simp), fun _ => by simpa using hT5,
                fun hp e he => by simp at he, fun _ => by simpa using hF5⟩

lemma mainPrep_temp (w0 : World) : TEMP_DIR ∈ (mainPrep w0).dirs := by
  simp only [mainPrep, World.log_dirs]
  exact World.ensureDir_mem_self _ _

lemma mainPrep_hasFile (w0 : World) (p : String) :
    (mainPrep w0).hasFile p = w0.hasFile p := rfl

lemma createCodeFiles_error_of_mem {env : Env} {files : List RemoteFile} {f : RemoteFile}
    (hf : f ∈ files) (he : ∃ e, env.net (textReq f) = Except.error e) (w : World) :
    ∃ e, (createCodeFiles env files w).2 = Except.error e := by
  obtain ⟨e, h2⟩ := downloadAll_error_of_mem "utf8" hf he
  rcases hda : downloadAll env.net files "utf8" with ⟨evs, r⟩
  rw [hda] at h2
  simp at h2
  subst h2
  exact ⟨e, by simp only [createCodeFiles, hda]⟩

lemma createImageFiles_error_of_mem {env : Env} {files : List RemoteFile} {f : RemoteFile}
    (hf : f ∈ files) (he : ∃ e, env.net (bufReq f) = Except.error e) (w : World) :
    ∃ e, (createImageFiles env files w).2 = Except.error e := by
  obtain ⟨e, h2⟩ := downloadAll_error_of_mem "arraybuffer" hf he
  rcases hda : downloadAll env.net files "arraybuffer" with ⟨evs, r⟩
  rw [hda] at h2
  simp at h2
  subst h2
  exact ⟨e, by simp only [createImageFiles, hda]⟩

lemma mainStages_error_of_dl_failure {env : Env} (w1 : World)
    (hfail : (∃ root, env.listing (contentsUrl "") = Except.ok root ∧
        ∃ f ∈ selectChapters root, ∃ e, env.net (textReq f) = Except.error e) ∨
      (∃ codeL, env.listing (contentsUrl "code") = Except.ok codeL ∧
        ∃ f ∈ mapRemote codeL, ∃ e, env.net (textReq f) = Except.error e) ∨
      (∃ imgL, env.listing (contentsUrl "images") = Except.ok imgL ∧
        ∃ f ∈ mapRemote imgL, ∃ e, env.net (bufReq f) = Except.error e)) :
    ∃ e, (mainStages env w1).2 = Except.error e := by
  rcases hfail with ⟨root, hroot, f, hf, he⟩ | ⟨codeL, hcl, f, hf, he⟩ | ⟨imgL, hil, f, hf, he⟩
  · rcases hgc : getCodeFiles env with ⟨evs, rc⟩
    cases rc with
    | error e0 => exact ⟨e0, by simp only [mainStages, hgc]⟩
    | ok codeFiles =>
      rcases hcc : createCodeFiles env codeFiles (w1.addEvents evs) with ⟨w2, r1⟩
      rcases hgi : getImageFiles env with ⟨evs2, ri⟩
      cases ri with
      | error e0 => exact ⟨e0, by simp only [mainStages, hgc, hcc, hgi]⟩
      | ok imageFiles =>
        rcases hci : createImageFiles env imageFiles (w2.addEvents evs2) with ⟨w3, r2⟩
        have hgch := getChapterFiles_ok hroot
        cases r1 with
        | error e1 => exact ⟨e1, by simp only [mainStages, hgc, hcc, hgi, hci, hgch]⟩
        | ok _ =>
          cases r2 with
          | error e2 => exact ⟨e2, by simp only [mainStages, hgc, hcc, hgi, hci, hgch]⟩
          | ok _ =>
            obtain ⟨e4, hm⟩ := mergeFiles_error_of_mem hf he
            rcases hmg : mergeFiles env.net (selectChapters root) with ⟨evs4, rm⟩
            rw [hmg] at hm
            simp at hm
            subst hm
            exact ⟨e4, by simp only [mainStages, hgc, hcc, hgi, hci, hgch, hmg]⟩
  · have hgc := getCodeFiles_ok hcl
    obtain ⟨e1, h1⟩ := createCodeFiles_error_of_mem hf he
      (w1.addEvents [Event.listReq (contentsUrl "code")])
    rcases hcc : createCodeFiles env (mapRemote codeL)
        (w1.addEvents [Event.listReq (contentsUrl "code")]) with ⟨w2, r1⟩
    rw [hcc] at h1
    simp at h1
    subst h1
    rcases hgi : getImageFiles env with ⟨evs2, ri⟩
    cases ri with
    | error e0 => exact ⟨e0, by simp only [mainStages, hgc, hcc, hgi]⟩
    | ok imageFiles =>
      rcases hci : createImageFiles env imageFiles (w2.addEvents evs2) with ⟨w3, r2⟩
      rcases hgch : getChapterFiles env with ⟨evs3, r3⟩
      exact ⟨e1, by simp only [mainStages, hgc, hcc, hgi, hci, hgch]⟩
  · rcases hgc : getCodeFiles env with ⟨evs, rc⟩
    cases rc with
    | error e0 => exact ⟨e0, by simp only [mainStages, hgc]⟩
    | ok codeFiles =>
      rcases hcc : createCodeFiles env codeFiles (w1.addEvents evs) with ⟨w2, r1⟩
      have hgi := getImageFiles_ok hil
      obtain ⟨e2, h2⟩ := createImageFiles_error_of_mem hf he
        (w2.addEvents [Event.listReq (contentsUrl "images")])
      rcases hci : createImageFiles env (mapRemote imgL)
          (w2.addEvents [Event.listReq (contentsUrl "images")]) with ⟨w3, r2⟩
      rw [hci] at h2
      simp at h2
      subst h2
      rcases hgch : getChapterFiles env with ⟨evs3, r3⟩
      cases r1 with
      | error e1 => exact ⟨e1, by simp only [mainStages, hgc, hcc, hgi, hci, hgch]⟩
      | ok _ => exact ⟨e2, by simp only [mainStages, hgc, hcc, hgi, hci, hgch]⟩

lemma mainStages_ok_empty {env : Env} (w1 : World) {root codeL imgL : List GhEntry}
    (h0 : env.listing (contentsUrl "") = Except.ok root)
    (hempty : selectChapters root = [])
    (hc : env.listing (contentsUrl "code") = Except.ok codeL)
    (hi : env.listing (contentsUrl "images") = Except.ok imgL)
    (hcd : ∀ f ∈ mapRemote codeL, ∃ d, env.net (textReq f) = Except.ok d)
    (hid : ∀ f ∈ mapRemote imgL, ∃ d, env.net (bufReq f) = Except.ok d) :
    (mainStages env w1).2 = Except.ok () := by
  have hgc := getCodeFiles_ok hc
  rcases hcc : createCodeFiles env (mapRemote codeL)
      (w1.addEvents [Event.listReq (contentsUrl "code")]) with ⟨w2, r1⟩
  have h1 : r1 = Except.ok () := by
    have h := createCodeFiles_ok_of_all
      (w1.addEvents [Event.listReq (contentsUrl "code")]) hcd
    rwa [hcc] at h
  subst h1
  have hgi := getImageFiles_ok hi
  rcases hci : createImageFiles env (mapRemote imgL)
      (w2.addEvents [Event.listReq (contentsUrl "images")]) with ⟨w3, r2⟩
  have h2 : r2 = Except.ok () := by
    have h := createImageFiles_ok_of_all
      (w2.addEvents [Event.listReq (contentsUrl "images")]) hid
    rwa [hci] at h
  subst h2
  have hgch : getChapterFiles env = ([Event.listReq (contentsUrl "")], Except.ok []) := by
    rw [getChapterFiles_ok h0, hempty]
  have hmg : mergeFiles env.net [] = ([], Except.ok "") := rfl
  rcases hsp : saveAsPDF env ""
      (((w3.addEvents [Event.listReq (contentsUrl "")]).addEvents []).log
        "Generating PDF...") with ⟨w5, rp⟩
  have hrp : rp = Except.ok () := by
    have h := saveAsPDF_ok env ""
      (((w3.addEvents [Event.listReq (contentsUrl "")]).addEvents []).log
        "Generating PDF...")
    rwa [hsp] at h
  subst hrp
  simp only [mainStages, hgc, hcc, hgi, hci, hgch, hmg, hsp]

/-! ## Claim theorems -/

/-- C1: for every sequence of chapter entries whose downloads succeed,
`mergeFiles` returns exactly the image-path-rewritten chapter texts joined
in listing order with one blank-line (`"\n\n"`) separator between each
adjacent pair, one joined document per input entry. -/
theorem c1_mergeFiles_joins (net : AxiosRequest → Except String AxiosData)
    (files : List RemoteFile) (t : RemoteFile → String)
    (hnet : ∀ f ∈ files, net (textReq f) = Except.ok (AxiosData.str (t f))) :
    (mergeFiles net files).2 =
      Except.ok (joinSep "\n\n" (files.map fun f => rewriteImages (t f)))
    ∧ (files.map fun f => rewriteImages (t f)).length = files.length :=
  ⟨mergeFiles_ok_of_texts hnet, by simp⟩

/-- Texts served by the network model of the C1 witness. -/
def c1Texts (f : RemoteFile) : String :=
  if f.downloadUrl = "u1" then "alpha" else "beta"

/-- Network model of the C1 witness. -/
def c1Net : AxiosRequest → Except String AxiosData := fun r =>
  if r.url = "u1" then Except.ok (AxiosData.str "alpha")
  else Except.ok (AxiosData.str "beta")

/-- Witness for C1 at a concrete two-chapter listing. -/
theorem c1_mergeFiles_joins_witness :
    (∀ f ∈ ([⟨"ch01.adoc", "u1"⟩, ⟨"ch02.adoc", "u2"⟩] : List RemoteFile),
        c1Net (textReq f) = Except.ok (AxiosData.str (c1Texts f)))
    ∧ ((mergeFiles c1Net [⟨"ch01.adoc", "u1"⟩, ⟨"ch02.adoc", "u2"⟩]).2 =
        Except.ok (joinSep "\n\n"
          (([⟨"ch01.adoc", "u1"⟩, ⟨"ch02.adoc", "u2"⟩] : List RemoteFile).map
            fun f => rewriteImages (c1Texts f)))
      ∧ (([⟨"ch01.adoc", "u1"⟩, ⟨"ch02.adoc", "u2"⟩] : List RemoteFile).map
          fun f => rewriteImages (c1Texts f)).length
          = ([⟨"ch01.adoc", "u1"⟩, ⟨"ch02.adoc", "u2"⟩] : List RemoteFile).length) :=
  have hnet : ∀ f ∈ ([⟨"ch01.adoc", "u1"⟩, ⟨"ch02.adoc", "u2"⟩] : List RemoteFile),
      c1Net (textReq f) = Except.ok (AxiosData.str (c1Texts f)) := by
    intro f hf
    rcases List.mem_cons.mp hf with rfl | hf2
    · rfl
    rcases List.mem_cons.mp hf2 with rfl | hf3
    · rfl
    exact absurd hf3 (List.not_mem_nil f)
  ⟨hnet, c1_mergeFiles_joins c1Net [⟨"ch01.adoc", "u1"⟩, ⟨"ch02.adoc", "u2"⟩] c1Texts hnet⟩

/-- C5: with successful listings, the chapter selector returns exactly the
entries whose name starts with `ch` and ends with `.adoc`, mapped to
name/URL pairs, while the code and image selectors return the unfiltered
contents of their subfolders; each selector's only event is its single
listing request (no filesystem effect, by construction of the pure
listing layer). -/
theorem c5_selectors (env : Env) (root codeL imgL : List GhEntry)
    (h0 : env.listing (contentsUrl "") = Except.ok root)
    (hc : env.listing (contentsUrl "code") = Except.ok codeL)
    (hi : env.listing (contentsUrl "images") = Except.ok imgL) :
    (getChapterFiles env
        = ([Event.listReq (contentsUrl "")], Except.ok (selectChapters root))
      ∧ ∀ r : RemoteFile, r ∈ selectChapters root ↔
          ∃ f ∈ root, strStartsWith f.name "ch" = true ∧ strEndsWith f.name ".adoc" = true
            ∧ r = ⟨f.name, f.download_url⟩)
    ∧ getCodeFiles env
        = ([Event.listReq (contentsUrl "code")], Except.ok (mapRemote codeL))
    ∧ getImageFiles env
        = ([Event.listReq (contentsUrl "images")], Except.ok (mapRemote imgL)) := by
  refine ⟨⟨getChapterFiles_ok h0, ?_⟩, getCodeFiles_ok hc, getImageFiles_ok hi⟩
  intro r
  constructor
  · intro hr
    obtain ⟨f, hf, rfl⟩ := List.mem_map.mp hr
    obtain ⟨hf1, hf2⟩ := List.mem_filter.mp hf
    rw [Bool.and_eq_true] at hf2
    exact ⟨f, hf1, hf2.1, hf2.2, rfl⟩
  · rintro ⟨f, hf, h1, h2, rfl⟩
    exact List.mem_map.mpr
      ⟨f, List.mem_filter.mpr ⟨hf, by rw [Bool.and_eq_true]; exact ⟨h1, h2⟩⟩, rfl⟩

/-- Listing model of the C5 witness. -/
def c5Env : Env :=
  ⟨fun url => if url = contentsUrl "" then
      Except.ok [⟨"ch01.adoc", "u1"⟩, ⟨"README.md", "u2"⟩, ⟨"chapters.txt", "u3"⟩]
    else Except.ok [⟨"somefile", "u4"⟩],
   fun _ => Except.ok (AxiosData.str ""), fun s => s, fun s => s⟩

/-- Witness for C5 at a concrete listing with matching and non-matching
entries. -/
theorem c5_selectors_witness :
    (c5Env.listing (contentsUrl "")
        = Except.ok [⟨"ch01.adoc", "u1"⟩, ⟨"README.md", "u2"⟩, ⟨"chapters.txt", "u3"⟩])
    ∧ (getChapterFiles c5Env = ([Event.listReq (contentsUrl "")],
        Except.ok (selectChapters
          [⟨"ch01.adoc", "u1"⟩, ⟨"README.md", "u2"⟩, ⟨"chapters.txt", "u3"⟩]))
      ∧ selectChapters [⟨"ch01.adoc", "u1"⟩, ⟨"README.md", "u2"⟩, ⟨"chapters.txt", "u3"⟩]
          = [⟨"ch01.adoc", "u1"⟩]
      ∧ getCodeFiles c5Env = ([Event.listReq (contentsUrl "code")],
          Except.ok (mapRemote [⟨"somefile", "u4"⟩]))) :=
  ⟨rfl,
    (c5_selectors c5Env [⟨"ch01.adoc", "u1"⟩, ⟨"README.md", "u2"⟩, ⟨"chapters.txt", "u3"⟩]
      [⟨"somefile", "u4"⟩] [⟨"somefile", "u4"⟩] rfl rfl rfl).1.1,
    by decide,
    (c5_selectors c5Env [⟨"ch01.adoc", "u1"⟩, ⟨"README.md", "u2"⟩, ⟨"chapters.txt", "u3"⟩]
      [⟨"somefile", "u4"⟩] [⟨"somefile", "u4"⟩] rfl rfl rfl).2.1⟩

/-- C6: `downloadFile` issues exactly one request, carrying the fixed
10000 ms timeout and forced IPv4 family, and returns the raw payload for
the `arraybuffer` hint and the text conversion otherwise. -/
theorem c6_downloadFile_shape (net : AxiosRequest → Except String AxiosData)
    (fileUrl responseType : String) :
    ((downloadFile net fileUrl responseType).1.filter isFileReq
        = [Event.fileReq ⟨fileUrl, responseType, 4, 10000⟩])
    ∧ (∀ d, net ⟨fileUrl, responseType, 4, 10000⟩ = Except.ok d →
        (downloadFile net fileUrl responseType).2 =
          Except.ok (if responseType = "arraybuffer" then DFile.raw d
            else DFile.text d.toStringUtf8))
    ∧ (∀ e, net ⟨fileUrl, responseType, 4, 10000⟩ = Except.error e →
        (downloadFile net fileUrl responseType).2 = Except.error e) := by
  refine ⟨?_, ?_, ?_⟩
  · cases hn : net ⟨fileUrl, responseType, 4, 10000⟩ <;>
      simp [downloadFile, hn, isFileReq]
  · intro d hd
    rw [downloadFile_ok hd]
  · intro e he
    rw [downloadFile_error he]

/-- Network model of the C6 witness. -/
def c6Net : AxiosRequest → Except String AxiosData := fun _ =>
  Except.ok (AxiosData.str "x")

/-- Witness for C6 at a concrete URL for both response-type hints. -/
theorem c6_downloadFile_shape_witness :
    ((downloadFile c6Net "u" "utf8").1.filter isFileReq
        = [Event.fileReq ⟨"u", "utf8", 4, 10000⟩])
    ∧ c6Net ⟨"u", "utf8", 4, 10000⟩ = Except.ok (AxiosData.str "x")
    ∧ (downloadFile c6Net "u" "utf8").2 = Except.ok (DFile.text "x")
    ∧ (downloadFile c6Net "u" "arraybuffer").2
        = Except.ok (DFile.raw (AxiosData.str "x")) :=
  ⟨(c6_downloadFile_shape c6Net "u" "utf8").1, rfl,
    by
      have h := (c6_downloadFile_shape c6Net "u" "utf8").2.1 (AxiosData.str "x") rfl
      rw [if_neg (show ¬("utf8" = "arraybuffer") by decide)] at h
      exact h,
    by
      have h := (c6_downloadFile_shape c6Net "u" "arraybuffer").2.1 (AxiosData.str "x") rfl
      rw [if_pos rfl] at h
      exact h⟩

/-- C7: a listing or download failure is logged at its point of origin and
re-thrown unchanged (the caller receives the very same error value), each
such operation issues exactly one request whether it fails or not (no
retry), and an error of the pipeline body is caught by `main`'s single
handler, logged, and swallowed — `jsMain` totally returns the logged
world. -/
theorem c7_error_logging (env : Env) (folder fileUrl rt e1 e2 e3 : String) (w0 : World) :
    (env.listing (contentsUrl folder) = Except.error e1 →
      fetchRepoContents env folder = ([Event.listReq (contentsUrl folder),
        Event.logLine ("Error fetching repository contents: " ++ e1)], Except.error e1))
    ∧ (env.net ⟨fileUrl, rt, 4, 10000⟩ = Except.error e2 →
      downloadFile env.net fileUrl rt = ([Event.fileReq ⟨fileUrl, rt, 4, 10000⟩,
        Event.logLine ("Error downloading file: " ++ e2)], Except.error e2))
    ∧ ((fetchRepoContents env folder).1.filter isListReq
        = [Event.listReq (contentsUrl folder)])
    ∧ ((downloadFile env.net fileUrl rt).1.filter isFileReq
        = [Event.fileReq ⟨fileUrl, rt, 4, 10000⟩])
    ∧ ((mainBody env w0).2 = Except.error e3 →
        jsMain env w0 = (mainBody env w0).1.log ("Error: " ++ e3)) := by
  refine ⟨fun h => fetchRepoContents_error h, fun h => downloadFile_error h, ?_, ?_, ?_⟩
  · cases hn : env.listing (contentsUrl folder) <;>
      simp [fetchRepoContents, hn, isListReq]
  · cases hn : env.net ⟨fileUrl, rt, 4, 10000⟩ <;>
      simp [downloadFile, hn, isFileReq]
  · intro h
    rcases hmb : mainBody env w0 with ⟨w, r⟩
    rw [hmb] at h
    simp at h
    subst h
    simp only [jsMain, hmb]

/-- Environment of the C7 witness: every remote call fails. -/
def c7Env : Env :=
  ⟨fun _ => Except.error "boom", fun _ => Except.error "net", fun s => s, fun s => s⟩

/-- The empty initial world. -/
def w00 : World := ⟨[], [], []⟩

/-- Witness for C7: failing listing and download, and the top-level catch
of the failing run. -/
theorem c7_error_logging_witness :
    (c7Env.listing (contentsUrl "code") = Except.error "boom")
    ∧ (fetchRepoContents c7Env "code" = ([Event.listReq (contentsUrl "code"),
        Event.logLine ("Error fetching repository contents: " ++ "boom")],
        Except.error "boom"))
    ∧ (c7Env.net ⟨"u", "utf8", 4, 10000⟩ = Except.error "net")
    ∧ (downloadFile c7Env.net "u" "utf8" = ([Event.fileReq ⟨"u", "utf8", 4, 10000⟩,
        Event.logLine ("Error downloading file: " ++ "net")], Except.error "net"))
    ∧ ((mainBody c7Env w00).2 = Except.error "boom")
    ∧ jsMain c7Env w00 = (mainBody c7Env w00).1.log ("Error: " ++ "boom") :=
  ⟨rfl,
    (c7_error_logging c7Env "code" "u" "utf8" "boom" "net" "boom" w00).1 rfl,
    rfl,
    (c7_error_logging c7Env "code" "u" "utf8" "boom" "net" "boom" w00).2.1 rfl,
    rfl,
    (c7_error_logging c7Env "code" "u" "utf8" "boom" "net" "boom" w00).2.2.2.2 rfl⟩

/-- Network model of the C2 counterexample and witness. -/
def c2Net : AxiosRequest → Except String AxiosData := fun _ =>
  Except.ok (AxiosData.str "image::image::images/foo.png[Alt text]")

/-- C2 counterexample: a chapter text in which the directive occurrence
`image::images/foo.png[Alt text]` is overlapped by an earlier match of the
regex (the match starting at the first `image::` captures
`image::images/foo.png` as its path, which does not begin with `images/`).
The merged document is unchanged: it still contains the `images/`-prefixed
form and does not contain the stripped form, refuting the claim as
universally stated. -/
theorem c2_counterexample :
    (mergeFiles c2Net [⟨"ch01.adoc", "u1"⟩]).2 =
      Except.ok "image::image::images/foo.png[Alt text]"
    ∧ hasSeg ("image::images/foo.png[Alt text]".data)
        ("image::image::images/foo.png[Alt text]".data) = true
    ∧ hasSeg ("image::images/".data)
        ("image::image::images/foo.png[Alt text]".data) = true
    ∧ hasSeg ("image::foo.png[Alt text]".data)
        ("image::image::images/foo.png[Alt text]".data) = false :=
  ⟨rfl, by decide, by decide, by decide⟩

/-- C2 (amended): for every chapter text of the form
`pre ++ image::<path>[<alt>] ++ post` in which no earlier regex match
overlaps the directive (no occurrence of `image::` in `pre`), whose
`<path>` contains no `[` and no line terminator and whose `<alt>` contains
no `]` and no line terminator, `mergeFiles` rewrites that occurrence by
stripping one leading `images/` segment from `<path>` and preserving
`<alt>` verbatim, and the merged document is the blank-line join of the
rewritten chapter texts. -/
theorem c2_image_rewrite (net : AxiosRequest → Except String AxiosData)
    (files : List RemoteFile) (t : RemoteFile → String) (f : RemoteFile)
    (pre p a post : List Char)
    (hnet : ∀ g ∈ files, net (textReq g) = Except.ok (AxiosData.str (t g)))
    (hf : f ∈ files)
    (hform : (t f).data = pre ++ (imageMark ++ (p ++ ('[' :: (a ++ (']' :: post))))))
    (hpre : hasSeg imageMark pre = false)
    (hp1 : '[' ∉ p) (hp2 : ∀ c ∈ p, isLineTerm c = false)
    (ha1 : ']' ∉ a) (ha2 : ∀ c ∈ a, isLineTerm c = false) :
    (rewriteImages (t f)).data =
      pre ++ (imageMark ++ (cleanImagePath p ++ ('[' :: (a ++ (']' :: rewriteScan post)))))
    ∧ (mergeFiles net files).2 =
        Except.ok (joinSep "\n\n" (files.map fun g => rewriteImages (t g))) := by
  refine ⟨?_, mergeFiles_ok_of_texts hnet⟩
  show rewriteScan (t f).data = _
  rw [hform]
  exact rewriteScan_directive hpre hp1 hp2 ha1 ha2

/-- Network model of the amended-C2 witness. -/
def c2NetW : AxiosRequest → Except String AxiosData := fun _ =>
  Except.ok (AxiosData.str "image::images/foo.png[Alt text]")

/-- Witness for the amended C2 at the chapter text
`image::images/foo.png[Alt text]`: the merged document is
`image::foo.png[Alt text]` (prefix stripped, alt preserved) and no
`images/` segment remains in it. -/
theorem c2_image_rewrite_witness :
    (∀ g ∈ ([⟨"ch01.adoc", "u1"⟩] : List RemoteFile),
        c2NetW (textReq g) =
          Except.ok (AxiosData.str "image::images/foo.png[Alt text]"))
    ∧ ("image::images/foo.png[Alt text]".data =
        [] ++ (imageMark ++ ("images/foo.png".data ++
          ('[' :: ("Alt text".data ++ (']' :: ([] : List Char)))))))
    ∧ ((rewriteImages "image::images/foo.png[Alt text]").data =
        [] ++ (imageMark ++ (cleanImagePath ("images/foo.png".data) ++
          ('[' :: ("Alt text".data ++ (']' :: rewriteScan ([] : List Char)))))))
    ∧ (mergeFiles c2NetW [⟨"ch01.adoc", "u1"⟩]).2 =
        Except.ok "image::foo.png[Alt text]"
    ∧ hasSeg ("images/".data) ("image::foo.png[Alt text]".data) = false :=
  ⟨fun _ _ => rfl, by decide,
    (c2_image_rewrite c2NetW [⟨"ch01.adoc", "u1"⟩]
      (fun _ => "image::images/foo.png[Alt text]") ⟨"ch01.adoc", "u1"⟩
      [] ("images/foo.png".data) ("Alt text".data) []
      (fun _ _ => rfl) (by decide) (by decide) (by decide)
      (by decide) (by decide) (by decide) (by decide)).1,
    rfl, by decide⟩

/-- C10: for every chapter text, the scanner decomposes it into the single
characters lying outside every regex match and the matched directives
(`scanParts`), and this decomposition reassembles to the text itself via
`partSource` and to the rewritten text via `partOutput`; since
`partOutput` agrees with `partSource` on every non-match atom (third
conjunct), all content outside `image::<path>[<alt>]` directives is
byte-for-byte unchanged by `mergeFiles`.  In particular a chapter text
with no occurrence of `image::` is left entirely unchanged and appears
verbatim as a contiguous segment of the merged document. -/
theorem c10_frame_verbatim (net : AxiosRequest → Except String AxiosData)
    (files : List RemoteFile) (t : RemoteFile → String) (f : RemoteFile)
    (hnet : ∀ g ∈ files, net (textReq g) = Except.ok (AxiosData.str (t g)))
    (hf : f ∈ files) :
    (((scanParts (t f).data).map partSource).flatten = (t f).data
      ∧ ((scanParts (t f).data).map partOutput).flatten = (rewriteImages (t f)).data
      ∧ ∀ q ∈ scanParts (t f).data, ∀ c : Char, q = Sum.inl c →
          partOutput q = partSource q)
    ∧ (mergeFiles net files).2 =
        Except.ok (joinSep "\n\n" (files.map fun g => rewriteImages (t g)))
    ∧ (hasSeg imageMark (t f).data = false →
        rewriteImages (t f) = t f
        ∧ ∃ m, (mergeFiles net files).2 = Except.ok m
            ∧ ∃ u v, m.data = u ++ ((t f).data ++ v)) := by
  refine ⟨⟨scanParts_source _, ?_, ?_⟩, mergeFiles_ok_of_texts hnet, ?_⟩
  · show ((scanParts (t f).data).map partOutput).flatten = rewriteScan (t f).data
    exact scanParts_output _
  · rintro q hq c rfl
    rfl
  · intro hno
    have hid : rewriteImages (t f) = t f := by
      show String.mk (rewriteScan (t f).data) = t f
      rw [rewriteScan_id hno]
    refine ⟨hid, joinSep "\n\n" (files.map fun g => rewriteImages (t g)),
      mergeFiles_ok_of_texts hnet, ?_⟩
    have hmem : rewriteImages (t f) ∈ files.map fun g => rewriteImages (t g) :=
      List.mem_map.mpr ⟨f, hf, rfl⟩
    obtain ⟨u, v, huv⟩ := joinSep_mem_seg hmem
    rw [hid] at huv
    exact ⟨u, v, huv⟩

/-- Network model of the C10 witness. -/
def c10Net : AxiosRequest → Except String AxiosData := fun r =>
  if r.url = "u1" then Except.ok (AxiosData.str "plain chapter, no directives")
  else Except.ok (AxiosData.str "before image::images/x[y] after")

/-- Texts served by the network model of the C10 witness. -/
def c10Texts (f : RemoteFile) : String :=
  if f.downloadUrl = "u1" then "plain chapter, no directives"
  else "before image::images/x[y] after"

/-- Witness for C10: a directive-free chapter next to a chapter with text
around a directive; the decomposition equations hold for the latter (and
its surrounding text survives verbatim), while the former is unchanged and
appears verbatim in the merged document. -/
theorem c10_frame_verbatim_witness :
    (∀ g ∈ ([⟨"ch01.adoc", "u1"⟩, ⟨"ch02.adoc", "u2"⟩] : List RemoteFile),
        c10Net (textReq g) = Except.ok (AxiosData.str (c10Texts g)))
    ∧ (((scanParts (c10Texts ⟨"ch02.adoc", "u2"⟩).data).map partSource).flatten
          = (c10Texts ⟨"ch02.adoc", "u2"⟩).data
      ∧ ((scanParts (c10Texts ⟨"ch02.adoc", "u2"⟩).data).map partOutput).flatten
          = (rewriteImages (c10Texts ⟨"ch02.adoc", "u2"⟩)).data
      ∧ ∀ q ∈ scanParts (c10Texts ⟨"ch02.adoc", "u2"⟩).data, ∀ c : Char,
          q = Sum.inl c → partOutput q = partSource q)
    ∧ rewriteImages (c10Texts ⟨"ch02.adoc", "u2"⟩) = "before image::x[y] after"
    ∧ hasSeg imageMark (c10Texts ⟨"ch01.adoc", "u1"⟩).data = false
    ∧ (rewriteImages (c10Texts ⟨"ch01.adoc", "u1"⟩) = c10Texts ⟨"ch01.adoc", "u1"⟩
      ∧ ∃ m, (mergeFiles c10Net [⟨"ch01.adoc", "u1"⟩, ⟨"ch02.adoc", "u2"⟩]).2 = Except.ok m
          ∧ ∃ u v, m.data = u ++ ((c10Texts ⟨"ch01.adoc", "u1"⟩).data ++ v)) :=
  have hnet : ∀ g ∈ ([⟨"ch01.adoc", "u1"⟩, ⟨"ch02.adoc", "u2"⟩] : List RemoteFile),
      c10Net (textReq g) = Except.ok (AxiosData.str (c10Texts g)) := by
    intro g hg
    rcases List.mem_cons.mp hg with rfl | hg2
    · rfl
    rcases List.mem_cons.mp hg2 with rfl | hg3
    · rfl
    exact absurd hg3 (List.not_mem_nil g)
  ⟨hnet,
    (c10_frame_verbatim c10Net [⟨"ch01.adoc", "u1"⟩, ⟨"ch02.adoc", "u2"⟩] c10Texts
      ⟨"ch02.adoc", "u2"⟩ hnet (by decide)).1,
    rfl,
    by decide,
    (c10_frame_verbatim c10Net [⟨"ch01.adoc", "u1"⟩, ⟨"ch02.adoc", "u2"⟩] c10Texts
      ⟨"ch01.adoc", "u1"⟩ hnet (by decide)).2.2 (by decide)⟩

/-- C3: if any single file download fails — a chapter, code, or image
download — the encompassing batch operation rejects, the failure
propagates out of the joined top-level operations (the pipeline body ends
in an error), and no PDF output is produced: `saveAsPDF` is never reached,
so the output file is absent from the final world of the run. -/
theorem c3_download_failure_no_pdf (env : Env) (w0 : World)
    (h0 : w0.hasFile OUTPUT_FILE = false)
    (hfail : (∃ root, env.listing (contentsUrl "") = Except.ok root ∧
        ∃ f ∈ selectChapters root, ∃ e, env.net (textReq f) = Except.error e) ∨
      (∃ codeL, env.listing (contentsUrl "code") = Except.ok codeL ∧
        ∃ f ∈ mapRemote codeL, ∃ e, env.net (textReq f) = Except.error e) ∨
      (∃ imgL, env.listing (contentsUrl "images") = Except.ok imgL ∧
        ∃ f ∈ mapRemote imgL, ∃ e, env.net (bufReq f) = Except.error e)) :
    (∃ e, (mainBody env w0).2 = Except.error e)
    ∧ (mainBody env w0).1.hasFile OUTPUT_FILE = false
    ∧ (jsMain env w0).hasFile OUTPUT_FILE = false := by
  obtain ⟨e, he⟩ := mainStages_error_of_dl_failure (mainPrep w0) hfail
  have hcases := mainStages_cases env (mainPrep w0) (mainPrep_temp w0)
  have hpdf : (mainStages env (mainPrep w0)).1.hasFile OUTPUT_FILE = false :=
    hcases.2.2.1 (by rw [mainPrep_hasFile]; exact h0) e he
  refine ⟨⟨e, he⟩, hpdf, ?_⟩
  rcases hmb : mainBody env w0 with ⟨w, r⟩
  have hw : w.hasFile OUTPUT_FILE = false := by
    have h : (mainBody env w0).1.hasFile OUTPUT_FILE = false := hpdf
    rwa [hmb] at h
  cases r <;> simp only [jsMain, hmb] <;> simpa using hw

/-- Environment of the C3 witness: the root listing has one chapter whose
download is refused; the subfolder listings are empty. -/
def c3Env : Env :=
  ⟨fun url => if url = contentsUrl "" then Except.ok [⟨"ch01.adoc", "u1"⟩]
    else Except.ok [],
   fun _ => Except.error "net down", fun s => s, fun s => s⟩

/-- Witness for C3 at a failing chapter download. -/
theorem c3_download_failure_no_pdf_witness :
    (w00.hasFile OUTPUT_FILE = false)
    ∧ (c3Env.listing (contentsUrl "") = Except.ok [⟨"ch01.adoc", "u1"⟩])
    ∧ (c3Env.net (textReq ⟨"ch01.adoc", "u1"⟩) = Except.error "net down")
    ∧ ((∃ e, (mainBody c3Env w00).2 = Except.error e)
      ∧ (mainBody c3Env w00).1.hasFile OUTPUT_FILE = false
      ∧ (jsMain c3Env w00).hasFile OUTPUT_FILE = false) :=
  ⟨rfl, rfl, rfl,
    c3_download_failure_no_pdf c3Env w00 rfl
      (Or.inl ⟨[⟨"ch01.adoc", "u1"⟩], rfl,
        ⟨"ch01.adoc", "u1"⟩, by decide, "net down", rfl⟩)⟩

/-- C4: if the listing yields zero chapter entries, `mergeFiles` on the
empty sequence returns the empty string, and the pipeline proceeds through
PDF generation without error, producing the output file. -/
theorem c4_empty_chapters (env : Env) (w0 : World) (root codeL imgL : List GhEntry)
    (h0 : env.listing (contentsUrl "") = Except.ok root)
    (hempty : selectChapters root = [])
    (hc : env.listing (contentsUrl "code") = Except.ok codeL)
    (hi : env.listing (contentsUrl "images") = Except.ok imgL)
    (hcd : ∀ f ∈ mapRemote codeL, ∃ d, env.net (textReq f) = Except.ok d)
    (hid : ∀ f ∈ mapRemote imgL, ∃ d, env.net (bufReq f) = Except.ok d) :
    mergeFiles env.net [] = ([], Except.ok "")
    ∧ (mainBody env w0).2 = Except.ok ()
    ∧ (mainBody env w0).1.hasFile OUTPUT_FILE = true := by
  have hok : (mainStages env (mainPrep w0)).2 = Except.ok () :=
    mainStages_ok_empty (mainPrep w0) h0 hempty hc hi hcd hid
  have hcases := mainStages_cases env (mainPrep w0) (mainPrep_temp w0)
  exact ⟨rfl, hok, hcases.2.2.2 hok⟩

/-- Environment of the C4 witness: every listing is empty, downloads never
fail. -/
def c4Env : Env :=
  ⟨fun _ => Except.ok [], fun _ => Except.ok (AxiosData.str ""), fun s => s, fun s => s⟩

/-- Witness for C4 at the all-empty listing. -/
theorem c4_empty_chapters_witness :
    (c4Env.listing (contentsUrl "") = Except.ok [])
    ∧ selectChapters [] = []
    ∧ (mergeFiles c4Env.net [] = ([], Except.ok "")
      ∧ (mainBody c4Env w00).2 = Except.ok ()
      ∧ (mainBody c4Env w00).1.hasFile OUTPUT_FILE = true) :=
  ⟨rfl, rfl,
    c4_empty_chapters c4Env w00 [] [] [] rfl rfl rfl rfl
      (fun f hf => absurd hf (List.not_mem_nil f))
      (fun f hf => absurd hf (List.not_mem_nil f))⟩

/-- C8: on a successful run the temporary directory — created at the start
of `main` — has been removed by the end of `saveAsPDF`, so it is absent
from the final world; on a run that fails before that final cleanup step
no cleanup-on-error path exists, so the directory is still present in the
final world. -/
theorem c8_tempdir_lifecycle (env : Env) (w0 : World) :
    ((mainBody env w0).2 = Except.ok () → TEMP_DIR ∉ (mainBody env w0).1.dirs)
    ∧ (∀ e, (mainBody env w0).2 = Except.error e → TEMP_DIR ∈ (mainBody env w0).1.dirs) := by
  have hcases := mainStages_cases env (mainPrep w0) (mainPrep_temp w0)
  refine ⟨hcases.2.1, ?_⟩
  intro e he
  have he2 : (mainStages env (mainPrep w0)).2 = Except.error e := he
  rcases hcases.1 with hok | hmem
  · rw [he2] at hok
    exact absurd hok (by simp)
  · exact hmem

/-- Witness for C8: a successful all-empty run leaves no temp directory; a
run whose first listing fails leaves it in place. -/
theorem c8_tempdir_lifecycle_witness :
    ((mainBody c4Env w00).2 = Except.ok ()
      ∧ TEMP_DIR ∉ (mainBody c4Env w00).1.dirs)
    ∧ ((mainBody c7Env w00).2 = Except.error "boom"
      ∧ TEMP_DIR ∈ (mainBody c7Env w00).1.dirs) :=
  ⟨⟨rfl, (c8_tempdir_lifecycle c4Env w00).1 rfl⟩,
    ⟨rfl, (c8_tempdir_lifecycle c7Env w00).2 "boom" rfl⟩⟩
